import Mathlib

/-! The ESLint configuration `eslint/.eslintrc.js`

The repository consists of one declarative configuration object.  It is embedded
here as a value of a small JavaScript-value type, key for key and in source
order.  The object is consumed by a linter; the two pieces of the linter that the
properties below depend on are modelled next to it:

* `Minimatch`: the glob matcher used for the `files` lists of override blocks
  (minimatch 3.x with the options `dot` and `matchBase`), for the glob syntax
  that occurs in this file (literal characters, `*`, `**`, `/`);
* `Eslint`: selection of the override blocks that match a path, and the key-wise
  merge of `rules`, `env` and `settings` in block order.

Both follow the linter's code, not this repository's: the repository holds the
data, the linter holds the functions.  Paths are relative to the directory of
the configuration file and use `/` as separator.

Rules, environments and settings contributed by *extended* rule sets
(`eslint:recommended`, `plugin:react/recommended`, ...) live in other packages
and are not part of the model.
-/

set_option autoImplicit false

/-! ## JavaScript values -/

/-- The values that occur in the configuration object. -/
inductive JsVal where
  | undefined : JsVal
  | bool : Bool → JsVal
  | str : String → JsVal
  | arr : List JsVal → JsVal
  | obj : List (String × JsVal) → JsVal

namespace JsVal

/-- Property lookup in a list of own properties (first occurrence). -/
def lookup (k : String) : List (String × JsVal) → Option JsVal
  | [] => none
  | (k', v) :: rest => if k = k' then some v else lookup k rest

/-- Property access `v[k]`; `undefined` when `v` is not an object or lacks `k`. -/
def field (v : JsVal) (k : String) : JsVal :=
  match v with
  | obj kvs => (lookup k kvs).getD undefined
  | _ => undefined

/-- Own properties of an object, `[]` for any other value. -/
def props : JsVal → List (String × JsVal)
  | obj kvs => kvs
  | _ => []

/-- Own keys of an object (`Object.keys`). -/
def keys (v : JsVal) : List String := v.props.map Prod.fst

/-- Elements of an array, `[]` for any other value. -/
def elems : JsVal → List JsVal
  | arr xs => xs
  | _ => []

/-- The string carried by a string value. -/
def asStr? : JsVal → Option String
  | str s => some s
  | _ => none

/-- The strings among the elements of an array. -/
def strings (v : JsVal) : List String := v.elems.filterMap asStr?

def isBool : JsVal → Bool
  | bool _ => true
  | _ => false

def isStr : JsVal → Bool
  | str _ => true
  | _ => false

def isArr : JsVal → Bool
  | arr _ => true
  | _ => false

def isObj : JsVal → Bool
  | obj _ => true
  | _ => false

/-- An array all of whose elements are strings. -/
def isStrArr : JsVal → Bool
  | arr xs => xs.all isStr
  | _ => false

end JsVal

/-! ## The configuration object (`src/eslint/eslintrc.js`) -/

open JsVal in
/-- The object assigned to `module.exports`, lines 2-114 of the source. -/
def moduleExports : JsVal :=
  obj [
    ("root", bool true),
    ("env", obj [
      ("browser", bool true),
      ("es2021", bool true),
      ("node", bool true)]),
    ("extends", arr [
      str "eslint:recommended",
      str "@typescript-eslint/recommended",
      str "prettier"]),
    ("parser", str "@typescript-eslint/parser"),
    ("parserOptions", obj [
      ("ecmaVersion", str "latest"),
      ("sourceType", str "module"),
      ("ecmaFeatures", obj [("jsx", bool true)])]),
    ("plugins", arr [
      str "@typescript-eslint",
      str "simple-import-sort",
      str "react",
      str "react-hooks"]),
    ("rules", obj [
      ("no-console", str "warn"),
      ("no-debugger", str "error"),
      ("no-unused-vars", str "off"),
      ("@typescript-eslint/no-unused-vars", arr [
        str "error",
        obj [("argsIgnorePattern", str "^_"), ("varsIgnorePattern", str "^_")]]),
      ("prefer-const", str "error"),
      ("no-var", str "error"),
      ("object-shorthand", str "error"),
      ("prefer-arrow-callback", str "error"),
      ("eqeqeq", arr [str "error", str "always"]),
      ("curly", arr [str "error", str "all"]),
      ("no-eval", str "error"),
      ("no-implied-eval", str "error"),
      ("no-new-func", str "error"),
      ("no-return-assign", str "error"),
      ("no-sequences", str "error"),
      ("no-throw-literal", str "error"),
      ("radix", str "error"),
      ("require-await", str "warn"),
      ("no-return-await", str "off"),
      ("prefer-promise-reject-errors", str "error"),
      ("@typescript-eslint/explicit-function-return-type", str "off"),
      ("@typescript-eslint/explicit-module-boundary-types", str "off"),
      ("@typescript-eslint/no-explicit-any", str "warn"),
      ("@typescript-eslint/no-non-null-assertion", str "warn"),
      ("@typescript-eslint/prefer-nullish-coalescing", str "error"),
      ("@typescript-eslint/prefer-optional-chain", str "error"),
      ("@typescript-eslint/consistent-type-imports", str "error"),
      ("@typescript-eslint/no-import-type-side-effects", str "error"),
      ("import/order", str "off"),
      ("sort-imports", str "off"),
      ("simple-import-sort/imports", str "error"),
      ("simple-import-sort/exports", str "error")]),
    ("overrides", arr [
      obj [
        ("files", arr [
          str "*.config.js", str "*.config.ts", str "vite.config.*", str "vitest.config.*"]),
        ("rules", obj [("no-console", str "off")])],
      obj [
        ("files", arr [str "**/*.test.*", str "**/*.spec.*", str "**/tests/**/*"]),
        ("env", obj [("jest", bool true), ("vitest", bool true)]),
        ("extends", arr [str "plugin:jest/recommended", str "plugin:vitest/recommended"]),
        ("rules", obj [
          ("no-console", str "off"),
          ("@typescript-eslint/no-explicit-any", str "off")])],
      obj [
        ("files", arr [str "*.jsx", str "*.tsx"]),
        ("extends", arr [str "plugin:react/recommended", str "plugin:react-hooks/recommended"]),
        ("settings", obj [("react", obj [("version", str "detect")])]),
        ("rules", obj [
          ("react/react-in-jsx-scope", str "off"),
          ("react/prop-types", str "off")])]]),
    ("ignorePatterns", arr [
      str "dist/",
      str "build/",
      str "node_modules/",
      str "*.min.js",
      str "coverage/",
      str ".eslintrc.js"])]

/-- The override blocks, in declared order (`overrides`, lines 72-105). -/
def overrides : List JsVal := (moduleExports.field "overrides").elems

/-- Override block 0: configuration files (lines 74-77). -/
def configFilesBlock : JsVal := overrides.getD 0 JsVal.undefined

/-- Override block 1: tests (lines 79-94). -/
def testBlock : JsVal := overrides.getD 1 JsVal.undefined

/-- Override block 2: React / JSX / TSX (lines 96-104). -/
def jsxBlock : JsVal := overrides.getD 2 JsVal.undefined

/-- The root `plugins` list (lines 23-28). -/
def plugins : List String := (moduleExports.field "plugins").strings

/-- The root `rules` mapping (lines 29-71). -/
def rules : List (String × JsVal) := (moduleExports.field "rules").props

/-! ## The glob matcher (minimatch 3.x, options `dot` and `matchBase`)

The linter tests a path against a `files` pattern with
`new Minimatch(pattern, { dot: true, matchBase: true }).match(relativePath)`.
The model follows that code for patterns built from literal characters, `*`,
`**` and `/`; `Minimatch.plain` states that a pattern stays inside this syntax. -/

namespace Minimatch

/-- One slash-separated part of a parsed pattern: `**` alone is the globstar, a
part with a `*` becomes a regular expression, any other part stays a string. -/
inductive Part where
  | globstar : Part
  | literal : List Char → Part
  | magic : List Char → Part

/-- The characters with a special meaning to minimatch that the model does not
interpret (negation, comments, braces, classes, extglobs, `?`, the escaping
backslash, code 92). -/
def special (c : Char) : Bool :=
  c = '!' || c = '#' || c = '?' || c = '+' || c = '@' || c = Char.ofNat 92 ||
  c = '[' || c = ']' || c = '(' || c = ')' || c = '|' || c = '^' || c = '$' ||
  c = Char.ofNat 123 || c = Char.ofNat 125

/-- A pattern inside the modelled syntax. -/
def plain (pattern : List Char) : Bool := !pattern.isEmpty && pattern.all (fun c => !special c)

/-- JavaScript `s.split(/\/+/)`: split at every maximal run of slashes. -/
def splitSlash : List Char → List (List Char)
  | [] => [[]]
  | c :: cs =>
    match splitSlash cs with
    | [] => [[c]]
    | s :: ss =>
      if c = '/' then
        if cs.head? = some '/' then s :: ss else [] :: s :: ss
      else (c :: s) :: ss

/-- Parsing of one pattern part (`Minimatch.parse`). -/
def parsePart (s : List Char) : Part :=
  if s = ['*', '*'] then Part.globstar
  else if s.contains '*' then Part.magic s
  else Part.literal s

/-- The parsed pattern (`this.set[0]`): the parts of the pattern, parsed. -/
def makeSet (pattern : List Char) : List Part := (splitSlash pattern).map parsePart

/-- Characters that the regular-expression atom `.` does not match: line feed,
carriage return, line separator and paragraph separator. -/
def isLineTerminator (c : Char) : Bool :=
  c = Char.ofNat 10 || c = Char.ofNat 13 || c = Char.ofNat 0x2028 || c = Char.ofNat 0x2029

/-- The text after an optional leading slash is `.` or `..` followed by the end
or a slash. -/
def dotsThenEnd : List Char → Bool
  | ['.'] => true
  | ['.', '.'] => true
  | '.' :: '/' :: _ => true
  | '.' :: '.' :: '/' :: _ => true
  | _ => false

/-- What the `dot: true` pattern start `(?!(?:^|\/)\.{1,2}(?:$|\/))` rejects at
the beginning of the text. -/
def patternStartRejects (f : List Char) : Bool :=
  dotsThenEnd f ||
    match f with
    | '/' :: r => dotsThenEnd r
    | _ => false

/-- The lookahead `(?=.)`: there is a first character and `.` matches it. -/
def lookaheadAny : List Char → Bool
  | [] => false
  | c :: _ => !isLineTerminator c

/-- The star `[^/]*?` followed by the continuation `k`: `k` accepts the text
after some slash-free prefix. -/
def swallow (k : List Char → Bool) : List Char → Bool
  | [] => k []
  | c :: cs => k (c :: cs) || (c != '/' && swallow k cs)

/-- The body of the regular expression of a magic part, up to the final `$`:
`*` is `[^/]*?`, every other character stands for itself. -/
def reBody : List Char → List Char → Bool
  | [], f => f.isEmpty
  | g :: gs, f =>
    if g = '*' then swallow (reBody gs) f
    else
      match f with
      | [] => false
      | c :: cs => c == g && reBody gs cs

/-- The regular expression of a magic part applied to a path part, for instance
`^(?!(?:^|\/)\.{1,2}(?:$|\/))(?=.)[^/]*?\.tsx$` for `*.tsx` and
`^(?=.)vite\.config\.[^/]*?$` for `vite.config.*`.  The lookahead `(?=.)` is
always present; the pattern start is added when the expression begins with a
star. -/
def reMatch (glob f : List Char) : Bool :=
  !(glob.head? == some '*' && patternStartRejects f) && lookaheadAny f && reBody glob f

/-- A path part that the globstar never swallows (`dot` is set, so only `.` and
`..`). -/
def unswallowable (f : List Char) : Bool := f = ['.'] || f = ['.', '.']

/-- The `while (fr < fl)` loop of a globstar that is not the last part: try the
rest of the pattern at every position, swallowing one path part at a time. -/
def globstarLoop (rest : List (List Char) → Bool) : List (List Char) → Bool
  | [] => false
  | f :: fs => rest (f :: fs) || (!unswallowable f && globstarLoop rest fs)

/-- The function `matchOne(file, pattern, partial = false)`. -/
def matchOne : List Part → List (List Char) → Bool
  | [], [] => true
  | [], f :: fs => fs.isEmpty && f.isEmpty
  | _ :: _, [] => false
  | Part.globstar :: ps, f :: fs =>
    if ps.isEmpty then (f :: fs).all (fun x => !unswallowable x)
    else globstarLoop (matchOne ps) (f :: fs)
  | Part.literal s :: ps, f :: fs => f == s && matchOne ps fs
  | Part.magic g :: ps, f :: fs => reMatch g f && matchOne ps fs

/-- The last non-empty part of the path, the empty string if there is none. -/
def basename (file : List (List Char)) : List Char :=
  (file.reverse.find? (fun s => !s.isEmpty)).getD []

/-- The method `match(f)` with `matchBase`: a pattern of one part is matched
against the basename alone. -/
def matchPath (pattern f : List Char) : Bool :=
  let set := makeSet pattern
  let file := splitSlash f
  matchOne set (if set.length = 1 then [basename file] else file)

/-- Joining path parts with single slashes. -/
def joinPath : List (List Char) → List Char
  | [] => []
  | [s] => s
  | s :: t :: rest => s ++ '/' :: joinPath (t :: rest)

/-- A path part as the file system has it: non-empty and without a slash. -/
def IsPart (s : List Char) : Prop := s ≠ [] ∧ '/' ∉ s

end Minimatch

/-! ## Override selection and merging (the linter's configuration array) -/

namespace Eslint

/-- The override tester: some pattern of the block's `files` matches the path,
given relative to the directory of the configuration file. -/
def overrideTest (block : JsVal) (path : String) : Bool :=
  (block.field "files").strings.any (fun p => Minimatch.matchPath p.data path.data)

/-- Assignment `target[k] = v`: an existing key keeps its position. -/
def setKey (k : String) (v : JsVal) : List (String × JsVal) → List (String × JsVal)
  | [] => [(k, v)]
  | (k', v') :: rest => if k = k' then (k, v) :: rest else (k', v') :: setKey k v rest

/-- Key-wise merge: every property of `source` is assigned to `target`.  (For
`rules` the linter keeps the options of the earlier entry when the later entry
is a severity alone; the rules that the override blocks of this file set have no
options at the root, see `overridden_root_entries_are_strings`.) -/
def assign (target source : List (String × JsVal)) : List (String × JsVal) :=
  source.foldl (fun acc kv => setKey kv.1 kv.2 acc) target

/-- The mapping `key` (`rules`, `env` or `settings`) in effect for a path when
the override blocks are `blocks`: start from the root mapping and apply, in
order, the mapping of each block whose `files` match. -/
def effectiveIn (blocks : List JsVal) (key : String) (path : String) : List (String × JsVal) :=
  (blocks.filter (fun b => overrideTest b path)).foldl
    (fun acc b => assign acc (b.field key).props) (moduleExports.field key).props

/-- The effective mapping with the override blocks in declared order. -/
def effective (key : String) (path : String) : List (String × JsVal) :=
  effectiveIn overrides key path

/-- Rule severities. -/
inductive Severity where
  | off : Severity
  | warn : Severity
  | error : Severity
  deriving DecidableEq, Repr

/-- The order `off < warn < error`. -/
def Severity.rank : Severity → Nat
  | Severity.off => 0
  | Severity.warn => 1
  | Severity.error => 2

def severityOfString (s : String) : Option Severity :=
  if s = "off" then some Severity.off
  else if s = "warn" then some Severity.warn
  else if s = "error" then some Severity.error
  else none

/-- The severity of a rule entry: the entry itself when it is a string, the
first element when it is a list. -/
def ruleSeverity : JsVal → Option Severity
  | JsVal.str s => severityOfString s
  | JsVal.arr (JsVal.str s :: _) => severityOfString s
  | _ => none

/-- The effective severity of a rule for a path. -/
def severityAt (rule : String) (path : String) : Option Severity :=
  (JsVal.lookup rule (effective "rules" path)).bind ruleSeverity

/-- The effective mapping as a function of which of the three blocks match. -/
def effectiveBits (key : String) (b₀ b₁ b₂ : Bool) : List (String × JsVal) :=
  let r₀ := (moduleExports.field key).props
  let r₁ := if b₀ then assign r₀ (configFilesBlock.field key).props else r₀
  let r₂ := if b₁ then assign r₁ (testBlock.field key).props else r₁
  if b₂ then assign r₂ (jsxBlock.field key).props else r₂

/-- A severity string. -/
def isSeverityString (s : String) : Bool := s = "off" || s = "warn" || s = "error"

/-- A rule entry of the shape the schema allows: a severity string, or a list
that starts with a severity string. -/
def validRuleEntry : JsVal → Bool
  | JsVal.str s => isSeverityString s
  | JsVal.arr (JsVal.str s :: _) => isSeverityString s
  | _ => false

/-- The `rules` mappings of the override blocks, concatenated in block order. -/
def overrideRules : List (String × JsVal) :=
  (overrides.map (fun b => (b.field "rules").props)).flatten

/-- The text before the last slash of a rule identifier: the plugin that the
rule belongs to; `none` for a core rule. -/
def ruleNamespace (id : String) : Option String :=
  match id.data.reverse.dropWhile (fun c => c != '/') with
  | [] => none
  | _ :: pre => some (String.mk pre.reverse)

/-- The plugin named by an entry `plugin:<name>/<config>` of an `extends` list. -/
def pluginOfExtends (e : String) : Option String :=
  if "plugin:".data.isPrefixOf e.data then ruleNamespace (String.mk (e.data.drop 7)) else none

/-- A rule identifier whose plugin, if any, is in the root `plugins` list. -/
def namespaceListed (id : String) : Bool :=
  match ruleNamespace id with
  | some ns => plugins.contains ns
  | none => true

/-- An `extends` entry whose plugin, if any, is in the root `plugins` list. -/
def extendsListed (e : String) : Bool :=
  match pluginOfExtends e with
  | some p => plugins.contains p
  | none => true

/-- Every `extends` entry of the file: the root list, then the blocks' lists. -/
def allExtends : List String :=
  (moduleExports.field "extends").strings ++
    (overrides.map (fun b => (b.field "extends").strings)).flatten

/-- The top-level keys of the configuration schema that the file uses. -/
def topLevelKeys : List String :=
  ["root", "env", "extends", "parser", "parserOptions", "plugins", "rules", "overrides",
    "ignorePatterns"]

/-- The keys an override block of the file may carry. -/
def overrideKeys : List String := ["files", "env", "extends", "settings", "rules"]

/-- The environments built into the linter (its `conf/environments` table). -/
def builtInEnvironments : List String :=
  ["builtin", "es6", "es2015", "es2016", "es2017", "es2018", "es2019", "es2020", "es2021",
    "es2022", "es2023", "es2024", "browser", "node", "shared-node-browser", "worker",
    "serviceworker", "commonjs", "amd", "mocha", "jasmine", "jest", "phantomjs", "jquery",
    "qunit", "prototypejs", "shelljs", "meteor", "mongo", "protractor", "applescript",
    "nashorn", "atomtest", "embertest", "webextensions", "greasemonkey"]

/-- The keys of an `env` mapping that the linter rejects as unknown whatever
plugins are installed: not built in, and not of the form `<plugin>/<name>`, the
only names under which a plugin provides environments. -/
def unknownEnvironments (env : JsVal) : List String :=
  env.keys.filter (fun id => !builtInEnvironments.contains id && !id.data.contains '/')

/-- The structural part of the schema: recognised keys and value types. -/
def wellShaped (c : JsVal) : Bool :=
  c.keys.all (fun k => topLevelKeys.contains k) &&
  (c.field "root").isBool &&
  (c.field "env").props.all (fun kv => kv.2.isBool) &&
  (c.field "extends").isStrArr && (c.field "plugins").isStrArr &&
  (c.field "ignorePatterns").isStrArr &&
  (c.field "overrides").elems.all (fun b =>
    b.keys.all (fun k => overrideKeys.contains k) &&
    (b.field "files").isStrArr && !(b.field "files").elems.isEmpty &&
    (b.field "env").props.all (fun kv => kv.2.isBool) &&
    ((b.field "extends").isStrArr || !(b.keys.contains "extends")))

end Eslint

/-! ## Lemmas about the merge -/

namespace Eslint

theorem lookup_setKey (k k' : String) (v : JsVal) (l : List (String × JsVal)) :
    JsVal.lookup k (setKey k' v l) = if k = k' then some v else JsVal.lookup k l := by
  induction l with
  | nil => simp [setKey, JsVal.lookup]
  | cons kv rest ih =>
    obtain ⟨k₀, v₀⟩ := kv
    by_cases h₀ : k' = k₀
    · subst h₀
      by_cases h : k = k' <;> simp [setKey, JsVal.lookup, h]
    · by_cases h : k = k'
      · subst h
        simp [setKey, JsVal.lookup, h₀, ih]
      · have h₀' : ¬ k₀ = k' := fun e => h₀ e.symm
        by_cases h₁ : k = k₀ <;> simp [setKey, JsVal.lookup, h₀, h₀', h, h₁, ih]

theorem overrides_eq : overrides = [configFilesBlock, testBlock, jsxBlock] := rfl

theorem effective_eq_bits (key path : String) :
    effective key path =
      effectiveBits key (overrideTest configFilesBlock path) (overrideTest testBlock path)
        (overrideTest jsxBlock path) := by
  unfold effective effectiveIn effectiveBits
  rw [overrides_eq]
  cases h₀ : overrideTest configFilesBlock path <;> cases h₁ : overrideTest testBlock path <;>
    cases h₂ : overrideTest jsxBlock path <;> simp [List.filter, h₀, h₁, h₂]

theorem rules_bits (id : String) (b₀ b₁ b₂ : Bool) :
    JsVal.lookup id (effectiveBits "rules" b₀ b₁ b₂) =
      if b₂ = true ∧ (id = "react/prop-types" ∨ id = "react/react-in-jsx-scope") then
        some (JsVal.str "off")
      else if b₁ = true ∧ id = "@typescript-eslint/no-explicit-any" then some (JsVal.str "off")
      else if (b₀ = true ∨ b₁ = true) ∧ id = "no-console" then some (JsVal.str "off")
      else JsVal.lookup id rules := by
  have e₀ : (moduleExports.field "rules").props = rules := rfl
  have e₁ : (configFilesBlock.field "rules").props = [("no-console", JsVal.str "off")] := rfl
  have e₂ : (testBlock.field "rules").props =
      [("no-console", JsVal.str "off"), ("@typescript-eslint/no-explicit-any", JsVal.str "off")] :=
    rfl
  have e₃ : (jsxBlock.field "rules").props =
      [("react/react-in-jsx-scope", JsVal.str "off"), ("react/prop-types", JsVal.str "off")] := rfl
  unfold effectiveBits
  simp only [e₀, e₁, e₂, e₃]
  cases b₀ <;> cases b₁ <;> cases b₂ <;>
    simp [assign, lookup_setKey] <;> split_ifs <;> simp_all

theorem env_bits (b₀ b₁ b₂ : Bool) :
    effectiveBits "env" b₀ b₁ b₂ =
      if b₁ = true then
        [("browser", JsVal.bool true), ("es2021", JsVal.bool true), ("node", JsVal.bool true),
          ("jest", JsVal.bool true), ("vitest", JsVal.bool true)]
      else [("browser", JsVal.bool true), ("es2021", JsVal.bool true), ("node", JsVal.bool true)] := by
  cases b₀ <;> cases b₁ <;> cases b₂ <;> rfl

theorem settings_bits (b₀ b₁ b₂ : Bool) :
    effectiveBits "settings" b₀ b₁ b₂ =
      if b₂ = true then [("react", JsVal.obj [("version", JsVal.str "detect")])] else [] := by
  cases b₀ <;> cases b₁ <;> cases b₂ <;> rfl

/-- The six orders of a list of three elements. -/
theorem perm_three {α : Type} {a b c : α} {l : List α} (h : l.Perm [a, b, c]) :
    l = [a, b, c] ∨ l = [b, a, c] ∨ l = [b, c, a] ∨ l = [a, c, b] ∨ l = [c, a, b] ∨
      l = [c, b, a] := by
  have h₁ := List.mem_permutations'.2 h
  simp [List.permutations', List.permutations'Aux] at h₁
  tauto

end Eslint

/-! ## Lemmas about the glob matcher -/

namespace Minimatch

theorem splitSlash_ne_nil (s : List Char) : splitSlash s ≠ [] := by
  cases s with
  | nil => simp [splitSlash]
  | cons c cs =>
    unfold splitSlash
    split
    · simp
    · split_ifs <;> simp

theorem splitSlash_plain (s : List Char) (h : '/' ∉ s) : splitSlash s = [s] := by
  induction s with
  | nil => rfl
  | cons c cs ih =>
    have hc : c ≠ '/' := fun e => h (by simp [e])
    have hcs : '/' ∉ cs := fun e => h (by simp [e])
    simp [splitSlash, ih hcs, hc]

theorem splitSlash_cons_slash (rest : List Char) (h : rest.head? ≠ some '/') :
    splitSlash ('/' :: rest) = [] :: splitSlash rest := by
  obtain ⟨x, xs, e⟩ := List.exists_cons_of_ne_nil (splitSlash_ne_nil rest)
  rw [splitSlash, e]
  simp [h]

theorem splitSlash_append (s rest : List Char) (h : '/' ∉ s) (hr : rest.head? ≠ some '/') :
    splitSlash (s ++ '/' :: rest) = s :: splitSlash rest := by
  induction s with
  | nil => simpa using splitSlash_cons_slash rest hr
  | cons c cs ih =>
    have hc : c ≠ '/' := fun e => h (by simp [e])
    have hcs : '/' ∉ cs := fun e => h (by simp [e])
    have e : splitSlash (c :: (cs ++ '/' :: rest)) = (c :: cs) :: splitSlash rest := by
      rw [splitSlash, ih hcs]
      simp [hc]
    simpa using e

theorem joinPath_head (segs : List (List Char)) (h : ∀ s ∈ segs, IsPart s) :
    (joinPath segs).head? ≠ some '/' := by
  match segs with
  | [] => simp [joinPath]
  | [s] =>
    obtain ⟨h₁, h₂⟩ := h s (by simp)
    cases s with
    | nil => exact absurd rfl h₁
    | cons c cs =>
      intro e
      simp [joinPath] at e
      exact h₂ (by simp [e])
  | s :: t :: rest =>
    obtain ⟨h₁, h₂⟩ := h s (by simp)
    cases s with
    | nil => exact absurd rfl h₁
    | cons c cs =>
      intro e
      simp [joinPath] at e
      exact h₂ (by simp [e])

theorem splitSlash_joinPath (segs : List (List Char)) (hne : segs ≠ [])
    (h : ∀ s ∈ segs, IsPart s) : splitSlash (joinPath segs) = segs := by
  induction segs with
  | nil => exact absurd rfl hne
  | cons s rest ih =>
    cases rest with
    | nil => exact splitSlash_plain s (h s (by simp)).2
    | cons t rest =>
      have ht : ∀ x ∈ t :: rest, IsPart x := fun x hx => h x (by simp [hx])
      rw [joinPath, splitSlash_append s _ (h s (by simp)).2 (joinPath_head _ ht), ih (by simp) ht]

theorem basename_append (dirs : List (List Char)) (base : List Char) (h : base ≠ []) :
    basename (dirs ++ [base]) = base := by
  cases base with
  | nil => exact absurd rfl h
  | cons c cs => simp [basename, List.find?]

theorem swallow_append (k : List Char → Bool) (pre f : List Char) (hpre : '/' ∉ pre)
    (hk : k f = true) : swallow k (pre ++ f) = true := by
  induction pre with
  | nil =>
    cases f with
    | nil => simpa [swallow] using hk
    | cons c cs => simp [swallow, hk]
  | cons c cs ih =>
    have hc : c ≠ '/' := fun e => hpre (by simp [e])
    have hcs : '/' ∉ cs := fun e => hpre (by simp [e])
    simp [swallow, ih hcs, hc]

theorem swallow_elim (k : List Char → Bool) (f : List Char) (h : swallow k f = true) :
    ∃ pre t, f = pre ++ t ∧ k t = true := by
  induction f with
  | nil => exact ⟨[], [], rfl, by simpa [swallow] using h⟩
  | cons c cs ih =>
    simp only [swallow, Bool.or_eq_true, Bool.and_eq_true] at h
    rcases h with h | ⟨_, h⟩
    · exact ⟨[], c :: cs, rfl, h⟩
    · obtain ⟨pre, t, e, ht⟩ := ih h
      exact ⟨c :: pre, t, by simp [e], ht⟩

theorem reBody_literal (lit f : List Char) (h : '*' ∉ lit) :
    reBody lit f = true ↔ f = lit := by
  induction lit generalizing f with
  | nil => cases f <;> simp [reBody]
  | cons g gs ih =>
    have hg : g ≠ '*' := fun e => h (by simp [e])
    have hgs : '*' ∉ gs := fun e => h (by simp [e])
    cases f with
    | nil => simp [reBody, hg]
    | cons c cs => simp [reBody, hg, ih cs hgs]

theorem reBody_literal_append (lit g f : List Char) (h : '*' ∉ lit) :
    reBody (lit ++ g) (lit ++ f) = reBody g f := by
  induction lit with
  | nil => rfl
  | cons c cs ih =>
    have hc : c ≠ '*' := fun e => h (by simp [e])
    have hcs : '*' ∉ cs := fun e => h (by simp [e])
    simp [reBody, hc, ih hcs]

theorem reBody_star (g pre f : List Char) (hpre : '/' ∉ pre) (h : reBody g f = true) :
    reBody ('*' :: g) (pre ++ f) = true := by
  simp only [reBody, if_true]
  exact swallow_append _ pre f hpre h

/-- A part matches `*<lit>*` when it is `name ++ lit ++ ext`. -/
theorem reBody_star_lit_star (lit name ext : List Char) (hl : '*' ∉ lit) (hn : '/' ∉ name)
    (he : '/' ∉ ext) : reBody ('*' :: (lit ++ ['*'])) (name ++ lit ++ ext) = true := by
  rw [List.append_assoc]
  apply reBody_star _ _ _ hn
  rw [reBody_literal_append _ _ _ hl]
  simpa using reBody_star [] ext [] he rfl

/-- A part matches `*<lit>` when it is `name ++ lit`. -/
theorem reBody_star_lit (lit name : List Char) (hl : '*' ∉ lit) (hn : '/' ∉ name) :
    reBody ('*' :: lit) (name ++ lit) = true :=
  reBody_star _ _ _ hn ((reBody_literal lit lit hl).2 rfl)

/-- A part that matches `*<lit>` ends in `lit`. -/
theorem suffix_of_reBody_star_lit (lit f : List Char) (hl : '*' ∉ lit)
    (h : reBody ('*' :: lit) f = true) : lit <:+ f := by
  simp only [reBody, if_true] at h
  obtain ⟨pre, t, e, ht⟩ := swallow_elim _ _ h
  rw [reBody_literal _ _ hl] at ht
  exact ⟨pre, by rw [e, ht]⟩

theorem patternStartRejects_short (f : List Char) (h : patternStartRejects f = true) :
    f.length ≤ 2 ∨ '/' ∈ f := by
  unfold patternStartRejects at h
  simp only [Bool.or_eq_true] at h
  rcases h with h | h
  · unfold dotsThenEnd at h
    split at h <;> simp_all
  · split at h
    · simp
    · exact absurd h (by simp)

theorem lookaheadAny_append (name rest : List Char) (hne : name ≠ [])
    (h : ∀ c, name.head? = some c → isLineTerminator c = false) :
    lookaheadAny (name ++ rest) = true := by
  cases name with
  | nil => exact absurd rfl hne
  | cons c cs => simp [lookaheadAny, h c rfl]

theorem globstarLoop_append (rest : List (List Char) → Bool) (dirs : List (List Char))
    (base : List Char) (hd : ∀ d ∈ dirs, unswallowable d = false) (h : rest [base] = true) :
    globstarLoop rest (dirs ++ [base]) = true := by
  induction dirs with
  | nil => simp [globstarLoop, h]
  | cons d ds ih =>
    have h₁ := hd d (by simp)
    have h₂ := ih (fun x hx => hd x (by simp [hx]))
    simp [globstarLoop, h₁, h₂]

/-- A pattern `**/<magic>` matches a path whose directories can be swallowed and
whose last part matches the magic part. -/
theorem matchOne_globstar_magic (g : List Char) (dirs : List (List Char)) (base : List Char)
    (hd : ∀ d ∈ dirs, unswallowable d = false) (h : reMatch g base = true) :
    matchOne [Part.globstar, Part.magic g] (dirs ++ [base]) = true := by
  have h₁ : globstarLoop (matchOne [Part.magic g]) (dirs ++ [base]) = true :=
    globstarLoop_append _ dirs base hd (by simp [matchOne, h])
  cases dirs with
  | nil => simpa [matchOne] using h₁
  | cons d ds => simpa [matchOne] using h₁

theorem reMatch_star (g name rest : List Char) (hname : IsPart name)
    (hfirst : ∀ c, name.head? = some c → isLineTerminator c = false) (hrest : '/' ∉ rest)
    (hlen : 2 ≤ rest.length) (h : reBody ('*' :: g) (name ++ rest) = true) :
    reMatch ('*' :: g) (name ++ rest) = true := by
  have h₁ : patternStartRejects (name ++ rest) = false := by
    cases hp : patternStartRejects (name ++ rest) with
    | false => rfl
    | true =>
      exfalso
      rcases patternStartRejects_short _ hp with hl | hs
      · have : 0 < name.length := List.length_pos.2 hname.1
        simp only [List.length_append] at hl
        omega
      · rcases List.mem_append.1 hs with hs | hs
        · exact hname.2 hs
        · exact hrest hs
  simp [reMatch, h₁, lookaheadAny_append name rest hname.1 hfirst, h]

theorem matchPath_globstar_magic (pattern g : List Char)
    (hset : makeSet pattern = [Part.globstar, Part.magic g]) (dirs : List (List Char))
    (base : List Char) (hparts : ∀ s ∈ dirs ++ [base], IsPart s)
    (hd : ∀ d ∈ dirs, unswallowable d = false) (h : reMatch g base = true) :
    matchPath pattern (joinPath (dirs ++ [base])) = true := by
  unfold matchPath
  simp only [hset, splitSlash_joinPath _ (by simp) hparts]
  simpa using matchOne_globstar_magic g dirs base hd h

theorem matchPath_base (pattern g : List Char) (hset : makeSet pattern = [Part.magic g])
    (dirs : List (List Char)) (base : List Char) (hparts : ∀ s ∈ dirs ++ [base], IsPart s) :
    matchPath pattern (joinPath (dirs ++ [base])) = reMatch g base := by
  unfold matchPath
  simp only [hset, splitSlash_joinPath _ (by simp) hparts]
  simp [basename_append dirs base (hparts base (by simp)).1, matchOne]

end Minimatch

open Eslint Minimatch

theorem testBlock_files :
    (testBlock.field "files").strings = ["**/*.test.*", "**/*.spec.*", "**/tests/**/*"] := rfl

theorem jsxBlock_files : (jsxBlock.field "files").strings = ["*.jsx", "*.tsx"] := rfl

theorem jsx_matches_iff (dirs : List (List Char)) (base : List Char)
    (hparts : ∀ s ∈ dirs ++ [base], IsPart s) :
    overrideTest jsxBlock (String.mk (joinPath (dirs ++ [base]))) =
      (reMatch "*.jsx".data base || reMatch "*.tsx".data base) := by
  unfold overrideTest
  rw [jsxBlock_files]
  simp only [List.any_cons, List.any_nil, Bool.or_false]
  rw [matchPath_base "*.jsx".data "*.jsx".data rfl dirs base hparts,
    matchPath_base "*.tsx".data "*.tsx".data rfl dirs base hparts]

/-- Every `files` pattern of the three override blocks stays inside the glob
syntax that the matcher model interprets. -/
theorem files_patterns_plain :
    (overrides.map (fun b => (b.field "files").strings)).flatten.all
      (fun p => plain p.data) = true := by decide

theorem validRuleEntry_shape (v : JsVal) (h : validRuleEntry v = true) :
    ∃ s, (s = "off" ∨ s = "warn" ∨ s = "error") ∧
      (v = JsVal.str s ∨ ∃ opts, v = JsVal.arr (JsVal.str s :: opts)) := by
  unfold validRuleEntry at h
  split at h
  · next s =>
    refine ⟨s, ?_, Or.inl rfl⟩
    simpa [isSeverityString, or_assoc] using h
  · next s opts =>
    refine ⟨s, ?_, Or.inr ⟨opts, rfl⟩⟩
    simpa [isSeverityString, or_assoc] using h
  · exact absurd h (by simp)

/-- The rules that override blocks set are, where the root configures them,
plain severity strings there. -/
theorem overridden_root_entries_are_strings :
    overrideRules.all
      (fun kv => match JsVal.lookup kv.1 rules with
        | some v => v.isStr
        | none => true) = true := by decide

/-- The `extends` lists of the file: `prettier` ends the root list, the
configuration-file block extends nothing, the other two blocks extend plugin
rule sets. -/
theorem extends_lists :
    (moduleExports.field "extends").strings =
      ["eslint:recommended", "@typescript-eslint/recommended", "prettier"] ∧
    (configFilesBlock.field "extends").strings = [] ∧
    (testBlock.field "extends").strings =
      ["plugin:jest/recommended", "plugin:vitest/recommended"] ∧
    (jsxBlock.field "extends").strings =
      ["plugin:react/recommended", "plugin:react-hooks/recommended"] :=
  ⟨rfl, rfl, rfl, rfl⟩

/-! ## The claims -/

/-- C1: for every path, the effective severity of `no-console` (root rules, then
the rules of each matching override block in order) is `off` when the path
matches the configuration-file block or the test block, and `warn` when it
matches neither. -/
theorem no_console_severity (path : String) :
    severityAt "no-console" path =
      some (if overrideTest configFilesBlock path = true ∨ overrideTest testBlock path = true
        then Severity.off else Severity.warn) := by
  unfold severityAt
  rw [effective_eq_bits, rules_bits]
  have e : JsVal.lookup "no-console" rules = some (JsVal.str "warn") := rfl
  cases overrideTest configFilesBlock path <;> cases overrideTest testBlock path <;>
    cases overrideTest jsxBlock path <;> simp [e] <;> rfl

/-- C2, amended: for every path below the configuration directory (every
directory part non-empty, slash-free and neither `.` nor `..`) whose basename is
`<name>.test.<ext>` or `<name>.spec.<ext>` with `<name>` and `<ext>` non-empty,
`<name>` not starting with a line terminator, and the basename not ending in
`.jsx` or `.tsx`, the test block matches and the JSX block does not. -/
theorem test_file_matches_test_block_only (dirs : List (List Char)) (name mid ext : List Char)
    (hdirs : ∀ d ∈ dirs, IsPart d ∧ d ≠ ['.'] ∧ d ≠ ['.', '.'])
    (hmid : mid = ".test.".data ∨ mid = ".spec.".data)
    (hname : IsPart name)
    (hfirst : ∀ c, name.head? = some c → isLineTerminator c = false)
    (hext : IsPart ext)
    (hjsx : ¬ ".jsx".data <:+ name ++ mid ++ ext)
    (htsx : ¬ ".tsx".data <:+ name ++ mid ++ ext) :
    overrideTest testBlock (String.mk (joinPath (dirs ++ [name ++ mid ++ ext]))) = true ∧
    overrideTest jsxBlock (String.mk (joinPath (dirs ++ [name ++ mid ++ ext]))) = false := by
  have hmids : '/' ∉ mid ∧ '*' ∉ mid ∧ 2 ≤ mid.length := by
    rcases hmid with e | e <;> subst e <;> decide
  have hbase : IsPart (name ++ mid ++ ext) := by
    refine ⟨by simp [hname.1], ?_⟩
    simp only [List.mem_append, not_or]
    exact ⟨⟨hname.2, hmids.1⟩, hext.2⟩
  have hparts : ∀ s ∈ dirs ++ [name ++ mid ++ ext], IsPart s := by
    intro s hs
    rcases List.mem_append.1 hs with h | h
    · exact (hdirs s h).1
    · rw [List.mem_singleton.1 h]; exact hbase
  have hd : ∀ d ∈ dirs, unswallowable d = false := by
    intro d h
    simp [unswallowable, (hdirs d h).2.1, (hdirs d h).2.2]
  have hre : reMatch ('*' :: (mid ++ ['*'])) (name ++ mid ++ ext) = true := by
    have hb := reBody_star_lit_star mid name ext hmids.2.1 hname.2 hext.2
    rw [List.append_assoc] at hb ⊢
    refine reMatch_star _ name (mid ++ ext) hname hfirst ?_ ?_ hb
    · simp only [List.mem_append, not_or]; exact ⟨hmids.1, hext.2⟩
    · simp only [List.length_append]; omega
  constructor
  · unfold overrideTest
    rw [testBlock_files]
    simp only [List.any_cons, List.any_nil, Bool.or_false, Bool.or_eq_true]
    rcases hmid with e | e
    · left
      subst e
      exact matchPath_globstar_magic "**/*.test.*".data "*.test.*".data rfl dirs _ hparts hd hre
    · right; left
      subst e
      exact matchPath_globstar_magic "**/*.spec.*".data "*.spec.*".data rfl dirs _ hparts hd hre
  · rw [jsx_matches_iff dirs _ hparts]
    have h₁ : reMatch "*.jsx".data (name ++ mid ++ ext) = false := by
      cases h : reMatch "*.jsx".data (name ++ mid ++ ext) with
      | false => rfl
      | true =>
        exfalso
        apply hjsx
        apply suffix_of_reBody_star_lit _ _ (by decide)
        simp only [reMatch, Bool.and_eq_true] at h
        exact h.2
    have h₂ : reMatch "*.tsx".data (name ++ mid ++ ext) = false := by
      cases h : reMatch "*.tsx".data (name ++ mid ++ ext) with
      | false => rfl
      | true =>
        exfalso
        apply htsx
        apply suffix_of_reBody_star_lit _ _ (by decide)
        simp only [reMatch, Bool.and_eq_true] at h
        exact h.2
    rw [h₁, h₂]
    rfl

/-- C2, instance: `foo.test.ts` is matched by the test block and not by the JSX
block. -/
theorem test_file_matches_test_block_only_witness :
    overrideTest testBlock "foo.test.ts" = true ∧ overrideTest jsxBlock "foo.test.ts" = false :=
  test_file_matches_test_block_only [] "foo".data ".test.".data "ts".data (by simp) (Or.inl rfl) ⟨by decide, by decide⟩ (by decide)
    ⟨by decide, by decide⟩ (by decide) (by decide)

/-- C2 as stated fails: the basename `foo.test.ts` has the required form, yet
the test block matches neither `../foo.test.ts` (a globstar never swallows `..`)
nor a basename that starts with a line feed (the lookahead `(?=.)` of every magic
part rejects it). -/
theorem test_block_misses_parent_and_newline_paths :
    overrideTest testBlock "../foo.test.ts" = false ∧
    overrideTest testBlock "\nfoo.test.ts" = false := by decide

/-- C3, amended: every path whose basename is a non-empty name, not starting
with a line terminator, followed by `.jsx` or `.tsx`, in any directory, is
matched by the JSX block; its effective rules have `react/react-in-jsx-scope`
and `react/prop-types` set to `off` and its settings have
`react.version = detect`. -/
theorem jsx_file_matches_jsx_block (dirs : List (List Char)) (name suffix : List Char)
    (hdirs : ∀ d ∈ dirs, IsPart d)
    (hsuffix : suffix = ".jsx".data ∨ suffix = ".tsx".data)
    (hname : IsPart name)
    (hfirst : ∀ c, name.head? = some c → isLineTerminator c = false) :
    overrideTest jsxBlock (String.mk (joinPath (dirs ++ [name ++ suffix]))) = true ∧
    JsVal.lookup "react/react-in-jsx-scope"
        (effective "rules" (String.mk (joinPath (dirs ++ [name ++ suffix])))) =
      some (JsVal.str "off") ∧
    JsVal.lookup "react/prop-types"
        (effective "rules" (String.mk (joinPath (dirs ++ [name ++ suffix])))) =
      some (JsVal.str "off") ∧
    ((JsVal.obj (effective "settings" (String.mk (joinPath (dirs ++ [name ++ suffix]))))).field
        "react").field "version" = JsVal.str "detect" := by
  have hs : '/' ∉ suffix ∧ '*' ∉ suffix ∧ 2 ≤ suffix.length := by
    rcases hsuffix with e | e <;> subst e <;> decide
  have hbase : IsPart (name ++ suffix) := by
    refine ⟨by simp [hname.1], ?_⟩
    simp only [List.mem_append, not_or]
    exact ⟨hname.2, hs.1⟩
  have hparts : ∀ s ∈ dirs ++ [name ++ suffix], IsPart s := by
    intro s h
    rcases List.mem_append.1 h with h | h
    · exact hdirs s h
    · rw [List.mem_singleton.1 h]; exact hbase
  have hre : reMatch ('*' :: suffix) (name ++ suffix) = true :=
    reMatch_star _ name suffix hname hfirst hs.1 hs.2.2 (reBody_star_lit suffix name hs.2.1 hname.2)
  have hm : overrideTest jsxBlock (String.mk (joinPath (dirs ++ [name ++ suffix]))) = true := by
    rw [jsx_matches_iff dirs _ hparts]
    rcases hsuffix with e | e <;> subst e
    · have h : reMatch "*.jsx".data (name ++ ".jsx".data) = true := hre
      rw [h]; rfl
    · have h : reMatch "*.tsx".data (name ++ ".tsx".data) = true := hre
      rw [h, Bool.or_true]
  refine ⟨hm, ?_, ?_, ?_⟩
  · rw [effective_eq_bits, rules_bits, hm]; simp
  · rw [effective_eq_bits, rules_bits, hm]; simp
  · rw [effective_eq_bits, settings_bits, hm]; rfl

/-- C3, instance: `component.tsx` is matched by the JSX block and gets its rules
and settings. -/
theorem jsx_file_matches_jsx_block_witness :
    overrideTest jsxBlock "component.tsx" = true ∧
    JsVal.lookup "react/react-in-jsx-scope" (effective "rules" "component.tsx") =
      some (JsVal.str "off") ∧
    JsVal.lookup "react/prop-types" (effective "rules" "component.tsx") =
      some (JsVal.str "off") ∧
    ((JsVal.obj (effective "settings" "component.tsx")).field "react").field "version" =
      JsVal.str "detect" :=
  jsx_file_matches_jsx_block [] "component".data ".tsx".data (by simp) (Or.inr rfl) ⟨by decide, by decide⟩ (by decide)

/-- C3 as stated fails: the basename is the non-empty name `<LF>component`
followed by `.tsx`, and the JSX block does not match it. -/
theorem jsx_block_misses_newline_basename : overrideTest jsxBlock "\ncomponent.tsx" = false := by decide

/-- C4, where the file breaks it: the object has the recognised keys and value
types, and the `env` keys of the root and of two blocks are known, but the test
block enables the environment `vitest`, which the linter does not know. -/
theorem vitest_environment_unknown :
    wellShaped moduleExports = true ∧
    unknownEnvironments (moduleExports.field "env") = [] ∧
    unknownEnvironments (configFilesBlock.field "env") = [] ∧
    unknownEnvironments (jsxBlock.field "env") = [] ∧
    unknownEnvironments (testBlock.field "env") = ["vitest"] := by decide

/-- C5: every entry of the root `rules` and of every override block's `rules`
is a severity string, or a list that starts with a severity string. -/
theorem rule_entries_are_severities (id : String) (v : JsVal) (h : (id, v) ∈ rules ++ overrideRules) :
    ∃ s, (s = "off" ∨ s = "warn" ∨ s = "error") ∧
      (v = JsVal.str s ∨ ∃ opts, v = JsVal.arr (JsVal.str s :: opts)) := by
  have hall : (rules ++ overrideRules).all (fun kv => validRuleEntry kv.2) = true := by decide
  exact validRuleEntry_shape v (List.all_eq_true.1 hall (id, v) h)

/-- C5, instance: the entry of `@typescript-eslint/no-unused-vars`, a list with
options. -/
theorem rule_entries_are_severities_witness :
    ∃ s, (s = "off" ∨ s = "warn" ∨ s = "error") ∧
      (JsVal.arr [JsVal.str "error", JsVal.obj [("argsIgnorePattern", JsVal.str "^_"),
          ("varsIgnorePattern", JsVal.str "^_")]] = JsVal.str s ∨
        ∃ opts, JsVal.arr [JsVal.str "error", JsVal.obj [("argsIgnorePattern", JsVal.str "^_"),
          ("varsIgnorePattern", JsVal.str "^_")]] = JsVal.arr (JsVal.str s :: opts)) :=
  rule_entries_are_severities "@typescript-eslint/no-unused-vars" _
    (List.mem_append_left _ (List.Mem.tail _ (List.Mem.tail _ (List.Mem.tail _ (List.Mem.head _)))))

/-- C7: for a path matched by the test block the effective environment has
`jest` and `vitest` and keeps `browser`, `es2021` and `node`, and `no-console`
and `@typescript-eslint/no-explicit-any` are `off`; for a path not matched by it
`jest` and `vitest` are absent from the effective environment. -/
theorem test_block_environment (path : String) :
    (overrideTest testBlock path = true →
      JsVal.lookup "jest" (effective "env" path) = some (JsVal.bool true) ∧
      JsVal.lookup "vitest" (effective "env" path) = some (JsVal.bool true) ∧
      JsVal.lookup "browser" (effective "env" path) = some (JsVal.bool true) ∧
      JsVal.lookup "es2021" (effective "env" path) = some (JsVal.bool true) ∧
      JsVal.lookup "node" (effective "env" path) = some (JsVal.bool true) ∧
      severityAt "no-console" path = some Severity.off ∧
      severityAt "@typescript-eslint/no-explicit-any" path = some Severity.off) ∧
    (overrideTest testBlock path = false →
      JsVal.lookup "jest" (effective "env" path) = none ∧
      JsVal.lookup "vitest" (effective "env" path) = none) := by
  constructor
  · intro h
    unfold severityAt
    rw [effective_eq_bits, effective_eq_bits, env_bits, rules_bits, rules_bits, h]
    refine ⟨rfl, rfl, rfl, rfl, rfl, ?_, ?_⟩ <;>
      cases overrideTest jsxBlock path <;> simp <;> rfl
  · intro h
    rw [effective_eq_bits, env_bits, h]
    exact ⟨rfl, rfl⟩

/-- C7, instances: `foo.test.ts` is matched by the test block, `src/index.ts`
is not. -/
theorem test_block_environment_witness :
    (JsVal.lookup "jest" (effective "env" "foo.test.ts") = some (JsVal.bool true) ∧
      JsVal.lookup "vitest" (effective "env" "foo.test.ts") = some (JsVal.bool true) ∧
      JsVal.lookup "browser" (effective "env" "foo.test.ts") = some (JsVal.bool true) ∧
      JsVal.lookup "es2021" (effective "env" "foo.test.ts") = some (JsVal.bool true) ∧
      JsVal.lookup "node" (effective "env" "foo.test.ts") = some (JsVal.bool true) ∧
      severityAt "no-console" "foo.test.ts" = some Severity.off ∧
      severityAt "@typescript-eslint/no-explicit-any" "foo.test.ts" = some Severity.off) ∧
    (JsVal.lookup "jest" (effective "env" "src/index.ts") = none ∧
      JsVal.lookup "vitest" (effective "env" "src/index.ts") = none) :=
  ⟨(test_block_environment "foo.test.ts").1 (by decide), (test_block_environment "src/index.ts").2 (by decide)⟩

/-- C8 as stated fails: the configured rule `import/order` belongs to the plugin
`import`, and the test block extends `plugin:jest/recommended`; neither `import`
nor `jest` is in the root `plugins` list. -/
theorem import_and_jest_plugins_unlisted :
    "import/order" ∈ rules.map Prod.fst ∧ ruleNamespace "import/order" = some "import" ∧
    "import" ∉ plugins ∧
    "plugin:jest/recommended" ∈ (testBlock.field "extends").strings ∧
    pluginOfExtends "plugin:jest/recommended" = some "jest" ∧ "jest" ∉ plugins := by decide

/-- C8, amended: `import/order`, configured `off` at the root and nowhere else,
is the only configured rule whose plugin is missing from the root `plugins`
list, and the two entries of the test block's `extends` are the only
`plugin:` entries whose plugin is missing from it. -/
theorem plugins_listed_with_exceptions :
    ((rules ++ overrideRules).map Prod.fst).filter (fun id => !namespaceListed id) =
      ["import/order"] ∧
    JsVal.lookup "import/order" rules = some (JsVal.str "off") ∧
    JsVal.lookup "import/order" overrideRules = none ∧
    allExtends.filter (fun e => !extendsListed e) =
      ["plugin:jest/recommended", "plugin:vitest/recommended"] ∧
    (testBlock.field "extends").strings = ["plugin:jest/recommended", "plugin:vitest/recommended"] :=
  ⟨by decide, rfl, rfl, by decide, rfl⟩

/-- C9: for every path and every rule configured at the root, the effective
value is the root value, except that `no-console` and
`@typescript-eslint/no-explicit-any` may be `off` instead; the effective severity
never exceeds the root severity, and no override block sets such a rule to a
severity above its root severity. -/
theorem overrides_only_relax (path id : String) (v : JsVal) (h : JsVal.lookup id rules = some v) :
    (id ≠ "no-console" → id ≠ "@typescript-eslint/no-explicit-any" →
      JsVal.lookup id (effective "rules" path) = some v) ∧
    (JsVal.lookup id (effective "rules" path) = some v ∨
      JsVal.lookup id (effective "rules" path) = some (JsVal.str "off")) ∧
    (∀ s₀ s, ruleSeverity v = some s₀ → severityAt id path = some s → s.rank ≤ s₀.rank) ∧
    (∀ b ∈ overrides, ∀ w s₀ s, JsVal.lookup id (b.field "rules").props = some w →
      ruleSeverity v = some s₀ → ruleSeverity w = some s → s.rank ≤ s₀.rank) := by
  have n₁ : id ≠ "react/prop-types" := by
    rintro rfl
    have e : JsVal.lookup "react/prop-types" rules = none := rfl
    rw [e] at h
    cases h
  have n₂ : id ≠ "react/react-in-jsx-scope" := by
    rintro rfl
    have e : JsVal.lookup "react/react-in-jsx-scope" rules = none := rfl
    rw [e] at h
    cases h
  have key : JsVal.lookup id (effective "rules" path) = some v ∨
      ((id = "no-console" ∨ id = "@typescript-eslint/no-explicit-any") ∧
        JsVal.lookup id (effective "rules" path) = some (JsVal.str "off")) := by
    rw [effective_eq_bits, rules_bits]
    simp only [n₁, n₂, or_self, and_false, if_false]
    split_ifs with h₁ h₂
    · exact Or.inr ⟨Or.inr h₁.2, rfl⟩
    · exact Or.inr ⟨Or.inl h₂.2, rfl⟩
    · exact Or.inl h
  refine ⟨?_, ?_, ?_, ?_⟩
  · intro h₁ h₂
    rcases key with k | ⟨k | k, _⟩
    · exact k
    · exact absurd k h₁
    · exact absurd k h₂
  · rcases key with k | ⟨_, k⟩
    · exact Or.inl k
    · exact Or.inr k
  · intro s₀ s hs₀ hs
    unfold severityAt at hs
    rcases key with k | ⟨_, k⟩
    · rw [k] at hs
      change ruleSeverity v = some s at hs
      rw [hs₀] at hs
      cases hs
      exact le_refl _
    · rw [k] at hs
      cases hs
      exact Nat.zero_le _
  · intro b hb w s₀ s hw _ hs
    have hoff : ruleSeverity w = some Severity.off := by
      rw [overrides_eq] at hb
      simp only [List.mem_cons, List.mem_singleton, List.not_mem_nil, or_false] at hb
      have e₁ : (configFilesBlock.field "rules").props = [("no-console", JsVal.str "off")] := rfl
      have e₂ : (testBlock.field "rules").props =
          [("no-console", JsVal.str "off"),
            ("@typescript-eslint/no-explicit-any", JsVal.str "off")] := rfl
      have e₃ : (jsxBlock.field "rules").props =
          [("react/react-in-jsx-scope", JsVal.str "off"), ("react/prop-types", JsVal.str "off")] :=
        rfl
      rcases hb with e | e | e <;> subst e
      · rw [e₁] at hw
        simp only [JsVal.lookup] at hw
        split_ifs at hw
        cases hw
        rfl
      · rw [e₂] at hw
        simp only [JsVal.lookup] at hw
        split_ifs at hw <;> (cases hw; rfl)
      · rw [e₃] at hw
        simp only [JsVal.lookup] at hw
        split_ifs at hw
        cases hw
        rfl
    rw [hoff] at hs
    cases hs
    exact Nat.zero_le _

/-- C9, instance: `eqeqeq` for `vite.config.test.tsx`, a path that all three
blocks match. -/
theorem overrides_only_relax_witness :
    ("eqeqeq" ≠ "no-console" → "eqeqeq" ≠ "@typescript-eslint/no-explicit-any" →
      JsVal.lookup "eqeqeq" (effective "rules" "vite.config.test.tsx") =
        some (JsVal.arr [JsVal.str "error", JsVal.str "always"])) ∧
    (JsVal.lookup "eqeqeq" (effective "rules" "vite.config.test.tsx") =
        some (JsVal.arr [JsVal.str "error", JsVal.str "always"]) ∨
      JsVal.lookup "eqeqeq" (effective "rules" "vite.config.test.tsx") =
        some (JsVal.str "off")) ∧
    (∀ s₀ s, ruleSeverity (JsVal.arr [JsVal.str "error", JsVal.str "always"]) = some s₀ →
      severityAt "eqeqeq" "vite.config.test.tsx" = some s → s.rank ≤ s₀.rank) ∧
    (∀ b ∈ overrides, ∀ w s₀ s, JsVal.lookup "eqeqeq" (b.field "rules").props = some w →
      ruleSeverity (JsVal.arr [JsVal.str "error", JsVal.str "always"]) = some s₀ →
      ruleSeverity w = some s → s.rank ≤ s₀.rank) :=
  overrides_only_relax "vite.config.test.tsx" "eqeqeq" (JsVal.arr [JsVal.str "error", JsVal.str "always"]) rfl

/-- C10: for every path and every permutation of the three override blocks, the
effective rules, env and settings obtained in the permuted order equal those
obtained in the declared order. -/
theorem override_order_irrelevant (perm : List JsVal) (h : perm.Perm overrides) (path : String) :
    effectiveIn perm "rules" path = effective "rules" path ∧
    effectiveIn perm "env" path = effective "env" path ∧
    effectiveIn perm "settings" path = effective "settings" path := by
  rw [overrides_eq] at h
  unfold effective
  rw [overrides_eq]
  unfold effectiveIn
  rcases perm_three h with e | e | e | e | e | e <;> subst e <;>
    cases h₀ : overrideTest configFilesBlock path <;> cases h₁ : overrideTest testBlock path <;>
    cases h₂ : overrideTest jsxBlock path <;> simp only [List.filter, h₀, h₁, h₂] <;>
    (refine ⟨?_, ?_, ?_⟩ <;> trivial)

/-- C10, instance: the reversed order for `vite.config.test.tsx`, which all
three blocks match. -/
theorem override_order_irrelevant_witness :
    effectiveIn overrides.reverse "rules" "vite.config.test.tsx" =
      effective "rules" "vite.config.test.tsx" ∧
    effectiveIn overrides.reverse "env" "vite.config.test.tsx" =
      effective "env" "vite.config.test.tsx" ∧
    effectiveIn overrides.reverse "settings" "vite.config.test.tsx" =
      effective "settings" "vite.config.test.tsx" :=
  override_order_irrelevant overrides.reverse (List.reverse_perm overrides) "vite.config.test.tsx"
